/-
Verification of the gengo audio-acquisition-and-transcription pipeline
(`internal/extractors/asr` and `internal/extractors/ytaudio`).

The Go source is shallowly embedded:
* files are lists of byte values (`List Nat`, each value < 256 where relevant);
* the file system visible to one run is an association list from path to
  content (`FS`);
* every external effect (the YouTube client, the ffmpeg subprocess, the
  whisper engine) is abstracted into an explicit environment record whose
  fields record the outcome of the corresponding external call, while all
  in-repository control flow is translated statement by statement;
* 16-bit machine integers are modelled as `Nat`/`Int` with explicit
  wrap-around, and the float32 normalisation `sample / 32768.0` is modelled
  exactly in `ℚ` (every value `k / 2^15` with `|k| ≤ 2^15` is exactly
  representable in float32, so the rational model is exact).
-/
import Mathlib

namespace asr

/-- Error classification of `loadAudioData` (asr/audio.go).  The spec's
`InvalidFormat` kind covers the magic-byte check, the declared-format check
and the byte-length check; a failure of the initial header read is an I/O
error, not an `InvalidFormat`. -/
inductive AudioErr where
  | readHeaderFailed : AudioErr
  | invalidMagic : AudioErr
  | unexpectedFormat : Nat → Nat → Nat → AudioErr
  | invalidLength : AudioErr
deriving DecidableEq, Repr

/-- Is the error one the spec classifies as `InvalidFormat`? -/
def AudioErr.isInvalidFormat : AudioErr → Bool
  | .readHeaderFailed => false
  | _ => true

/-- The bytes of the ASCII string RIFF. -/
def riffMagic : List Nat := [82, 73, 70, 70]

/-- The bytes of the ASCII string WAVE. -/
def waveMagic : List Nat := [87, 65, 86, 69]

/-- The 44-byte header buffer after `file.Read(header)`: the first
44 bytes of the file; for a shorter (non-empty) file the single read
returns what exists and the rest of the zero-initialised buffer stays 0. -/
def padHeader (file : List Nat) : List Nat :=
  file.take 44 ++ List.replicate (44 - (file.take 44).length) 0

/-- `binary.LittleEndian.Uint16(header[22:24])`. -/
def headerChannels (h : List Nat) : Nat := h.getD 22 0 + 256 * h.getD 23 0

/-- `binary.LittleEndian.Uint32(header[24:28])`. -/
def headerSampleRate (h : List Nat) : Nat :=
  h.getD 24 0 + 256 * h.getD 25 0 + 65536 * h.getD 26 0 + 16777216 * h.getD 27 0

/-- `binary.LittleEndian.Uint16(header[34:36])`. -/
def headerBits (h : List Nat) : Nat := h.getD 34 0 + 256 * h.getD 35 0

/-- `string(header[0:4]) == "RIFF" && string(header[8:12]) == "WAVE"`. -/
def headerMagicOk (h : List Nat) : Bool :=
  decide (h.take 4 = riffMagic ∧ (h.drop 8).take 4 = waveMagic)

/-- `channels == 1 && sampleRate == 16000 && bitsPerSample == 16`. -/
def headerFormatOk (h : List Nat) : Bool :=
  decide (headerChannels h = 1 ∧ headerSampleRate h = 16000 ∧ headerBits h = 16)

/-- `int16(u)` for a `uint16` value `u`. -/
def toInt16 (n : Nat) : Int := if n < 32768 then (n : Int) else (n : Int) - 65536

/-- The conversion loop of `loadAudioData`: each little-endian byte pair
becomes `float32(int16(...)) / 32768.0`, in order. -/
def decodeSamples : List Nat → List ℚ
  | b0 :: b1 :: rest => ((toInt16 (b0 + 256 * b1) : ℚ) / 32768) :: decodeSamples rest
  | _ => []

/-- `loadAudioData` (asr/audio.go lines 11-59) on the file's bytes.
An empty file makes the header read itself fail; otherwise the magic
check, the declared-format check, the odd-length check and the sample
conversion run exactly as in the source. -/
def loadAudioData (file : List Nat) : Except AudioErr (List ℚ) :=
  if file.length = 0 then .error .readHeaderFailed
  else if headerMagicOk (padHeader file) = false then .error .invalidMagic
  else if headerFormatOk (padHeader file) = false then
    .error (.unexpectedFormat (headerChannels (padHeader file))
      (headerSampleRate (padHeader file)) (headerBits (padHeader file)))
  else if (file.drop 44).length % 2 ≠ 0 then .error .invalidLength
  else .ok (decodeSamples (file.drop 44))

/-- Two's-complement `uint16` image of a 16-bit signed sample. -/
def int16ToUint16 (s : Int) : Nat := (s % 65536).toNat

/-- Little-endian encoding of one 16-bit signed sample, as a WAV writer
produces it (the spec's round-trip property constructs such payloads). -/
def encodeSample (s : Int) : List Nat :=
  [int16ToUint16 s % 256, int16ToUint16 s / 256]

/-- Little-endian encoding of a whole sample sequence. -/
def encodeSamples : List Int → List Nat
  | [] => []
  | s :: rest => encodeSample s ++ encodeSamples rest

/-- A concrete 44-byte canonical header: RIFF/WAVE magic, mono,
16000 Hz, 16 bits per sample (remaining fields arbitrary but realistic). -/
def canonicalHeader : List Nat :=
  [82, 73, 70, 70, 0, 0, 0, 0, 87, 65, 86, 69,
   102, 109, 116, 32, 16, 0, 0, 0, 1, 0, 1, 0,
   128, 62, 0, 0, 0, 125, 0, 0, 2, 0, 16, 0,
   100, 97, 116, 97, 0, 0, 0, 0]

/-- `unicode.IsSpace` restricted to the ASCII whitespace that can occur in
the byte strings this pipeline handles. -/
def isSpaceChar (c : Char) : Bool := c = ' ' || c = '\t' || c = '\n' || c = '\r'

/-- `strings.TrimSpace`: remove leading and trailing whitespace. -/
def trimSpace (s : String) : String :=
  String.mk (((s.data.dropWhile isSpaceChar).reverse.dropWhile isSpaceChar).reverse)

/-- `asr.Config` (WhisperModel path and optional language hint). -/
structure Config where
  WhisperModel : String
  Language : String
deriving DecidableEq, Repr

/-- `asr.DefaultConfig()`. -/
def DefaultConfig : Config :=
  { WhisperModel := "models/ggml-base.bin", Language := "" }

/-- `asr.Result`. -/
structure Result where
  Text : String
  Language : String
deriving DecidableEq, Repr

/-- Error classification of the ASR stage, one constructor per
error-returning statement of `TranscribeFile`. -/
inductive AsrErr where
  | modelNotFound : AsrErr
  | modelLoadFailed : AsrErr
  | contextFailed : AsrErr
  | setLanguageFailed : AsrErr
  | loadAudioFailed : AudioErr → AsrErr
  | processFailed : AsrErr
  | segmentFailed : AsrErr
deriving DecidableEq, Repr

/-- Outcomes of the external whisper engine calls made by
`TranscribeFile`.  `detectedLanguage` is whatever language the engine
detected; the source never queries it (TODO comment at line 103).
`drainErr` records whether the segment sequence ends in a mid-drain error
instead of the `io.EOF` end-of-sequence signal; the text drained before
such an error is discarded by the source, so its position is irrelevant. -/
structure WhisperEnv where
  modelExists : Bool
  modelLoadOk : Bool
  newContextOk : Bool
  setLanguageOk : Bool
  processOk : Bool
  segments : List String
  drainErr : Bool
  detectedLanguage : String

/-- The segment-collection loop of `TranscribeFile` (lines 88-99): drain
every segment, appending its text and a newline, until `io.EOF`; a
non-EOF error aborts with no partial transcript. -/
def drainSegments (segs : List String) (drainErr : Bool) : Except AsrErr String :=
  if drainErr then .error .segmentFailed
  else .ok (segs.foldl (fun acc t => acc ++ t ++ "\n") "")

/-- `Service.TranscribeFile` (lines 49-105) on the bytes of the WAV file
at `audioPath`: model-existence check, model load, context creation,
optional language hint, audio decode, inference, segment drain, and the
final `Result` with trimmed text and the configured (never the detected)
language. -/
def transcribeFile (cfg : Config) (env : WhisperEnv) (wavContent : List Nat) :
    Except AsrErr Result :=
  if env.modelExists = false then .error .modelNotFound
  else if env.modelLoadOk = false then .error .modelLoadFailed
  else if env.newContextOk = false then .error .contextFailed
  else if cfg.Language ≠ "" ∧ env.setLanguageOk = false then .error .setLanguageFailed
  else
    match loadAudioData wavContent with
    | .error e => .error (.loadAudioFailed e)
    | .ok _data =>
      if env.processOk = false then .error .processFailed
      else
        match drainSegments env.segments env.drainErr with
        | .error e => .error e
        | .ok raw => .ok { Text := trimSpace raw, Language := cfg.Language }

end asr

/-- A run-visible file system: association list from path to content.
`fsSet` models `os.Create` followed by writes (truncate then write),
`fsRemove` models `os.Remove`. -/
abbrev FS := List (String × List Nat)

/-- Content of the file at `p`, if present. -/
def fsGet (fs : FS) (p : String) : Option (List Nat) :=
  (fs.find? (fun e => e.1 == p)).map (fun e => e.2)

/-- Does a file exist at `p`? -/
def fsHas (fs : FS) (p : String) : Bool := fs.any (fun e => e.1 == p)

/-- Create/truncate the file at `p` with the given content. -/
def fsSet (fs : FS) (p : String) (content : List Nat) : FS :=
  (p, content) :: fs.filter (fun e => e.1 != p)

/-- Delete the file at `p`. -/
def fsRemove (fs : FS) (p : String) : FS := fs.filter (fun e => e.1 != p)

/-- `filepath.Join` for a clean directory and a bare file name. -/
def joinPath (dir name : String) : String := dir ++ "/" ++ name

namespace youtube

/-- The fields of `youtube.Format` that `downloadVideo` consults. -/
structure Format where
  ItagNo : Nat
  AudioChannels : Nat
  Bitrate : Int
deriving DecidableEq, Repr

end youtube

namespace ytaudio

/-- `ytaudio.Config`. -/
structure Config where
  OutputDir : String
  ASRConfig : asr.Config
  CleanupFiles : Bool
deriving DecidableEq, Repr

/-- `ytaudio.TranscriptionResult`: text, wall-clock duration, error.
There is no language field. -/
structure TranscriptionResult where
  Text : String
  Duration : Nat
  Error : Option String
deriving DecidableEq, Repr

/-- One iteration of the best-format loop of `downloadVideo`
(lines 110-115): replace the current best exactly when it is absent or
the new format's bitrate is strictly larger. -/
def selectStep (best : Option youtube.Format) (f : youtube.Format) :
    Option youtube.Format :=
  match best with
  | none => some f
  | some b => if b.Bitrate < f.Bitrate then some f else some b

/-- The whole best-format loop: left fold of `selectStep` from `nil`. -/
def selectBestFormat (formats : List youtube.Format) : Option youtube.Format :=
  formats.foldl selectStep none

/-- Error classification of `downloadVideo`, one constructor per
error-returning statement. -/
inductive FetchErr where
  | getVideoFailed : FetchErr
  | noAudioFormats : FetchErr
  | noSuitableFormat : FetchErr
  | getStreamFailed : FetchErr
  | createFailed : FetchErr
  | copyFailed : FetchErr
deriving DecidableEq, Repr

/-- Outcomes of the external YouTube-client calls made by
`downloadVideo`: the video's format list (or a `GetVideo` error), the
`GetStream` outcome, whether `os.Create` succeeds, the bytes `io.Copy`
manages to write, and whether the copy then fails. -/
structure FetchEnv where
  videoFormats : Option (List youtube.Format)
  getStreamOk : Bool
  createOk : Bool
  streamWritten : List Nat
  copyErr : Bool

/-- `Service.downloadVideo` (ytaudio.go lines 94-142).  The context
parameter mirrors the Go signature; the body — like the source, which
calls the context-free `GetVideo` and `GetStream` — never consults it.
On a copy error the partially written file is left in place (the source
has no `os.Remove` on this path). -/
def downloadVideo (env : FetchEnv) (ctxCancelled : Bool) (outputPath : String)
    (fs : FS) : Except FetchErr Unit × FS :=
  match env.videoFormats with
  | none => (.error .getVideoFailed, fs)
  | some allFormats =>
    if (allFormats.filter (fun f => 0 < f.AudioChannels)).length = 0 then
      (.error .noAudioFormats, fs)
    else
      match selectBestFormat (allFormats.filter (fun f => 0 < f.AudioChannels)) with
      | none => (.error .noSuitableFormat, fs)
      | some _best =>
        if env.getStreamOk = false then (.error .getStreamFailed, fs)
        else if env.createOk = false then (.error .createFailed, fs)
        else if env.copyErr then (.error .copyFailed, fsSet fs outputPath env.streamWritten)
        else (.ok (), fsSet fs outputPath env.streamWritten)

/-- `time.Now().Unix()`: whole seconds of a nanosecond-precision clock
reading. -/
def unixSeconds (nowNs : Int) : Int := nowNs / 1000000000

/-- The per-run media path `filepath.Join(outputDir, "video_<ts>.mp4")`
built at ytaudio.go lines 66-68. -/
def videoPathFor (outputDir : String) (ts : Int) : String :=
  joinPath outputDir ("video_" ++ toString ts ++ ".mp4")

/-- The canonical-WAV path `filepath.Join(tempDir, "temp_audio.wav")`
built at asr service line 110 — a constant name, not per-run. -/
def wavPathFor (tempDir : String) : String := joinPath tempDir "temp_audio.wav"

/-- Errors of a whole pipeline run, tagged by the failing stage. -/
inductive TranscodeErr where
  | contextCancelled : TranscodeErr
  | ffmpegFailed : TranscodeErr
deriving DecidableEq, Repr

/-- Outcome of the external ffmpeg invocation: `none` models a non-zero
exit, `some bytes` a successful conversion producing those WAV bytes. -/
structure TranscodeEnv where
  ffmpegOutput : Option (List Nat)

/-- `convertToWAV`: `exec.CommandContext` honours the caller's context,
so an already-cancelled context fails the command before ffmpeg produces
output; otherwise the external outcome decides, a success overwriting
(`-y`) the output path. -/
def convertToWAV (tenv : TranscodeEnv) (ctxCancelled : Bool) (outputPath : String)
    (fs : FS) : Except TranscodeErr Unit × FS :=
  if ctxCancelled then (.error .contextCancelled, fs)
  else
    match tenv.ffmpegOutput with
    | none => (.error .ffmpegFailed, fs)
    | some bytes => (.ok (), fsSet fs outputPath bytes)

/-- Failure classification of a whole run, tagged by stage. -/
inductive PipeErr where
  | fetchFailed : FetchErr → PipeErr
  | transcodeFailed : TranscodeErr → PipeErr
  | asrFailed : asr.AsrErr → PipeErr
deriving DecidableEq, Repr

/-- Is the failure a fetch-stage failure? -/
def PipeErr.isFetchFailed : PipeErr → Bool
  | .fetchFailed _ => true
  | _ => false

/-- `Service.TranscribeAudio` (asr service lines 108-120): convert the
input to `temp_audio.wav` in `tempDir`, transcribe it, and remove the
WAV on every path after a successful conversion (the deferred
`os.Remove`); a failed conversion removes nothing. -/
def transcribeAudio (cfg : asr.Config) (tenv : TranscodeEnv) (wenv : asr.WhisperEnv)
    (ctxCancelled : Bool) (_inputPath tempDir : String) (fs : FS) :
    Except PipeErr asr.Result × FS :=
  let wavPath := wavPathFor tempDir
  match convertToWAV tenv ctxCancelled wavPath fs with
  | (.error e, fs1) => (.error (.transcodeFailed e), fs1)
  | (.ok _, fs1) =>
    let wavContent := (fsGet fs1 wavPath).getD []
    match asr.transcribeFile cfg wenv wavContent with
    | .error e => (.error (.asrFailed e), fsRemove fs1 wavPath)
    | .ok r => (.ok r, fsRemove fs1 wavPath)

/-- `Service.TranscribeYouTubeVideo` (ytaudio.go lines 57-91): build the
timestamp-derived media path, download, transcribe, and — only when
every stage succeeded — delete the media file when `CleanupFiles` is
set.  `elapsed` stands for the measured wall-clock duration.  (The
`os.MkdirAll` call creates only the directory, never a file, so it does
not change the file map.) -/
def transcribeYouTubeVideo (cfg : Config) (fenv : FetchEnv) (tenv : TranscodeEnv)
    (wenv : asr.WhisperEnv) (ctxCancelled : Bool) (nowNs : Int) (elapsed : Nat)
    (fs : FS) : Except PipeErr TranscriptionResult × FS :=
  let videoPath := videoPathFor cfg.OutputDir (unixSeconds nowNs)
  match downloadVideo fenv ctxCancelled videoPath fs with
  | (.error e, fs1) => (.error (.fetchFailed e), fs1)
  | (.ok _, fs1) =>
    match transcribeAudio cfg.ASRConfig tenv wenv ctxCancelled videoPath
        cfg.OutputDir fs1 with
    | (.error e, fs2) => (.error e, fs2)
    | (.ok r, fs2) =>
      let fs3 := if cfg.CleanupFiles then fsRemove fs2 videoPath else fs2
      (.ok { Text := asr.trimSpace r.Text, Duration := elapsed, Error := none }, fs3)

end ytaudio

/-- The candidate list of the spec's worked example: bitrates 64000,
128000, 96000. -/
def demoFormats : List youtube.Format :=
  [⟨139, 2, 64000⟩, ⟨140, 2, 128000⟩, ⟨141, 2, 96000⟩]

/-- A header identical to the canonical one except that it declares
2 channels. -/
def twoChannelHeader : List Nat :=
  [82, 73, 70, 70, 0, 0, 0, 0, 87, 65, 86, 69,
   102, 109, 116, 32, 16, 0, 0, 0, 1, 0, 2, 0,
   128, 62, 0, 0, 0, 125, 0, 0, 2, 0, 16, 0,
   100, 97, 116, 97, 0, 0, 0, 0]

/-- A fetch environment in which every external call succeeds: one
audio-bearing candidate, a working stream, and a fully copied payload. -/
def demoFetchEnvOk : ytaudio.FetchEnv :=
  { videoFormats := some [⟨140, 2, 128000⟩], getStreamOk := true, createOk := true,
    streamWritten := [104, 101], copyErr := false }

/-- A fetch environment whose transfer fails after three bytes were
written to the output file. -/
def demoFetchEnvPartial : ytaudio.FetchEnv :=
  { videoFormats := some [⟨140, 2, 128000⟩], getStreamOk := true, createOk := true,
    streamWritten := [1, 2, 3], copyErr := true }

/-- A transcode environment in which ffmpeg succeeds and emits a
canonical (headers only) WAV file. -/
def demoTenv : ytaudio.TranscodeEnv := { ffmpegOutput := some asr.canonicalHeader }

/-- A whisper environment in which every engine call succeeds and the
segment sequence ends immediately. -/
def demoWhisperEnv : asr.WhisperEnv :=
  { modelExists := true, modelLoadOk := true, newContextOk := true,
    setLanguageOk := true, processOk := true, segments := [], drainErr := false,
    detectedLanguage := "en" }

/-- A whisper environment whose model file is missing. -/
def demoWhisperEnvNoModel : asr.WhisperEnv :=
  { modelExists := false, modelLoadOk := true, newContextOk := true,
    setLanguageOk := true, processOk := true, segments := [], drainErr := false,
    detectedLanguage := "en" }

/-- The default orchestrator configuration of the source
(`/tmp/ytaudio`, default ASR config, cleanup enabled). -/
def demoYtCfg : ytaudio.Config :=
  { OutputDir := "/tmp/ytaudio", ASRConfig := asr.DefaultConfig, CleanupFiles := true }

section SelectionProofs

open ytaudio

/-- Behaviour of the best-format fold once the accumulator is non-nil:
either every remaining format's bitrate is at most the accumulator's and
the accumulator survives, or the fold returns a format of the list whose
bitrate strictly exceeds the accumulator's, bounds the whole list, and
strictly exceeds every format before it. -/
theorem foldl_selectStep_spec (l : List youtube.Format) :
    ∀ b : youtube.Format,
      (l.foldl selectStep (some b) = some b ∧ ∀ f ∈ l, f.Bitrate ≤ b.Bitrate)
      ∨ (∃ c i, l.foldl selectStep (some b) = some c ∧
          b.Bitrate < c.Bitrate ∧ l.get? i = some c ∧
          (∀ f ∈ l, f.Bitrate ≤ c.Bitrate) ∧
          ∀ j, j < i → ∀ g, l.get? j = some g → g.Bitrate < c.Bitrate) := by
  induction l with
  | nil => intro b; left; simp
  | cons f fs ih =>
    intro b
    by_cases h : b.Bitrate < f.Bitrate
    · have hstep : selectStep (some b) f = some f := by simp [selectStep, h]
      rcases ih f with ⟨heq, hmax⟩ | ⟨c, i, heq, hlt, hget, hmax, hfirst⟩
      · right
        refine ⟨f, 0, ?_, h, rfl, ?_, ?_⟩
        · simpa [hstep] using heq
        · intro g hg
          rcases List.mem_cons.mp hg with rfl | hg
          · exact le_refl _
          · exact hmax _ hg
        · intro j hj g _
          exact absurd hj (Nat.not_lt_zero j)
      · right
        refine ⟨c, i + 1, ?_, lt_trans h hlt, hget, ?_, ?_⟩
        · simpa [hstep] using heq
        · intro g hg
          rcases List.mem_cons.mp hg with rfl | hg
          · exact le_of_lt hlt
          · exact hmax _ hg
        · intro j hj g hgj
          cases j with
          | zero =>
            have hfg : f = g := by simpa using hgj
            exact hfg ▸ hlt
          | succ k => exact hfirst k (by omega) g (by simpa using hgj)
    · have hstep : selectStep (some b) f = some b := by simp [selectStep, h]
      rcases ih b with ⟨heq, hmax⟩ | ⟨c, i, heq, hlt, hget, hmax, hfirst⟩
      · left
        constructor
        · simpa [hstep] using heq
        · intro g hg
          rcases List.mem_cons.mp hg with rfl | hg
          · exact le_of_not_lt h
          · exact hmax _ hg
      · right
        refine ⟨c, i + 1, ?_, hlt, hget, ?_, ?_⟩
        · simpa [hstep] using heq
        · intro g hg
          rcases List.mem_cons.mp hg with rfl | hg
          · exact le_of_lt (lt_of_le_of_lt (le_of_not_lt h) hlt)
          · exact hmax _ hg
        · intro j hj g hgj
          cases j with
          | zero =>
            have hfg : f = g := by simpa using hgj
            exact hfg ▸ lt_of_le_of_lt (le_of_not_lt h) hlt
          | succ k => exact hfirst k (by omega) g (by simpa using hgj)

/-- C1. For every non-empty list of audio-bearing stream candidates, the
fetcher's selection loop returns exactly the first candidate, in
enumeration order, attaining the maximum bitrate: the selected candidate
occurs in the list at an index `i`, its bitrate bounds every candidate's
bitrate, and every candidate before index `i` has strictly smaller
bitrate. -/
theorem selectBestFormat_first_max (l : List youtube.Format) (hne : l ≠ []) :
    ∃ c i, selectBestFormat l = some c ∧ l.get? i = some c ∧
      (∀ f ∈ l, f.Bitrate ≤ c.Bitrate) ∧
      ∀ j, j < i → ∀ g, l.get? j = some g → g.Bitrate < c.Bitrate := by
  cases l with
  | nil => exact absurd rfl hne
  | cons f fs =>
    have hfold : selectBestFormat (f :: fs) = fs.foldl selectStep (some f) := rfl
    rcases foldl_selectStep_spec fs f with ⟨heq, hmax⟩ | ⟨c, i, heq, hlt, hget, hmax, hfirst⟩
    · refine ⟨f, 0, by rw [hfold, heq], rfl, ?_, ?_⟩
      · intro g hg
        rcases List.mem_cons.mp hg with rfl | hg
        · exact le_refl _
        · exact hmax _ hg
      · intro j hj g _
        exact absurd hj (Nat.not_lt_zero j)
    · refine ⟨c, i + 1, by rw [hfold, heq], hget, ?_, ?_⟩
      · intro g hg
        rcases List.mem_cons.mp hg with rfl | hg
        · exact le_of_lt hlt
        · exact hmax _ hg
      · intro j hj g hgj
        cases j with
        | zero =>
          have hfg : f = g := by simpa using hgj
          exact hfg ▸ hlt
        | succ k => exact hfirst k (by omega) g (by simpa using hgj)

/-- Witness for C1 at the spec's worked example. -/
theorem selectBestFormat_first_max_witness :
    demoFormats ≠ [] ∧
      ∃ c i, selectBestFormat demoFormats = some c ∧ demoFormats.get? i = some c ∧
        (∀ f ∈ demoFormats, f.Bitrate ≤ c.Bitrate) ∧
        ∀ j, j < i → ∀ g, demoFormats.get? j = some g → g.Bitrate < c.Bitrate :=
  ⟨by decide, selectBestFormat_first_max demoFormats (by decide)⟩

end SelectionProofs

section DecoderProofs

/-- C2 (counterexample). A file made of a fully valid canonical header —
magic bytes correct, declaring exactly 1 channel, 16000 Hz, 16 bits —
followed by a single payload byte makes the decoder fail with an
`InvalidFormat`-classified error, so the decoder's `InvalidFormat`
failures are not exhausted by magic-byte and declared-format
violations. -/
theorem loadAudioData_invalidFormat_iff_counterexample :
    asr.loadAudioData (asr.canonicalHeader ++ [0]) = .error .invalidLength ∧
    (asr.AudioErr.invalidLength).isInvalidFormat = true ∧
    asr.headerMagicOk (asr.padHeader (asr.canonicalHeader ++ [0])) = true ∧
    asr.headerFormatOk (asr.padHeader (asr.canonicalHeader ++ [0])) = true := by
  refine ⟨rfl, rfl, rfl, rfl⟩

/-- C2 (amended). For every non-empty file, the decoder fails with an
`InvalidFormat`-classified error exactly when the header's magic bytes
mismatch, or the header does not declare exactly 1 channel, 16000 Hz and
16 bits per sample, or the payload after the 44-byte header has an odd
byte count; in particular a header declaring 2 channels is rejected
regardless of all other fields. -/
theorem loadAudioData_invalidFormat_iff (file : List Nat) (hne : file ≠ []) :
    (∃ e, asr.loadAudioData file = .error e ∧ e.isInvalidFormat = true) ↔
      (asr.headerMagicOk (asr.padHeader file) = false ∨
       asr.headerFormatOk (asr.padHeader file) = false ∨
       (file.drop 44).length % 2 = 1) := by
  have hlen : ¬ file.length = 0 := fun h => hne (List.length_eq_zero.mp h)
  by_cases hm : asr.headerMagicOk (asr.padHeader file) = false
  · have hrun : asr.loadAudioData file = .error .invalidMagic := by
      unfold asr.loadAudioData
      rw [if_neg hlen, if_pos hm]
    exact ⟨fun _ => Or.inl hm, fun _ => ⟨.invalidMagic, hrun, rfl⟩⟩
  · by_cases hf : asr.headerFormatOk (asr.padHeader file) = false
    · have hrun : asr.loadAudioData file =
          .error (.unexpectedFormat (asr.headerChannels (asr.padHeader file))
            (asr.headerSampleRate (asr.padHeader file))
            (asr.headerBits (asr.padHeader file))) := by
        unfold asr.loadAudioData
        rw [if_neg hlen, if_neg hm, if_pos hf]
      exact ⟨fun _ => Or.inr (Or.inl hf), fun _ => ⟨_, hrun, rfl⟩⟩
    · by_cases ho : (file.drop 44).length % 2 = 1
      · have ho' : (file.drop 44).length % 2 ≠ 0 := by omega
        have hrun : asr.loadAudioData file = .error .invalidLength := by
          unfold asr.loadAudioData
          rw [if_neg hlen, if_neg hm, if_neg hf, if_pos ho']
        exact ⟨fun _ => Or.inr (Or.inr ho), fun _ => ⟨.invalidLength, hrun, rfl⟩⟩
      · have ho' : ¬ (file.drop 44).length % 2 ≠ 0 := by omega
        have hrun : asr.loadAudioData file = .ok (asr.decodeSamples (file.drop 44)) := by
          unfold asr.loadAudioData
          rw [if_neg hlen, if_neg hm, if_neg hf, if_neg ho']
        constructor
        · rintro ⟨e, he, _⟩
          rw [hrun] at he
          exact Except.noConfusion he
        · rintro (h | h | h)
          · exact absurd h hm
          · exact absurd h hf
          · exact absurd h ho

/-- Witness for the amended C2 at the 2-channel header: the decoder
rejects it with the declared-format error, in agreement with the
equivalence. -/
theorem loadAudioData_invalidFormat_iff_witness :
    twoChannelHeader ≠ [] ∧
    asr.loadAudioData twoChannelHeader = .error (.unexpectedFormat 2 16000 16) ∧
    ((∃ e, asr.loadAudioData twoChannelHeader = .error e ∧ e.isInvalidFormat = true) ↔
      (asr.headerMagicOk (asr.padHeader twoChannelHeader) = false ∨
       asr.headerFormatOk (asr.padHeader twoChannelHeader) = false ∨
       (twoChannelHeader.drop 44).length % 2 = 1)) :=
  ⟨by decide, rfl, loadAudioData_invalidFormat_iff twoChannelHeader (by decide)⟩

/-- Decoding inverts the two's-complement little-endian encoding of an
in-range 16-bit sample. -/
theorem toInt16_int16ToUint16 (s : Int) (h1 : -32768 ≤ s) (h2 : s ≤ 32767) :
    asr.toInt16 (asr.int16ToUint16 s % 256 + 256 * (asr.int16ToUint16 s / 256)) = s := by
  rw [Nat.mod_add_div (asr.int16ToUint16 s) 256]
  unfold asr.toInt16 asr.int16ToUint16
  split_ifs with h
  · omega
  · omega

/-- Sample-level round trip: decoding an encoded in-range sample list
yields exactly the normalised rationals, in order. -/
theorem decodeSamples_encodeSamples (l : List Int)
    (h : ∀ s ∈ l, -32768 ≤ s ∧ s ≤ 32767) :
    asr.decodeSamples (asr.encodeSamples l) = l.map (fun s : Int => (s : ℚ) / 32768) := by
  induction l with
  | nil => rfl
  | cons s rest ih =>
    have hs := h s (List.mem_cons_self s rest)
    have hrest : ∀ x ∈ rest, -32768 ≤ x ∧ x ≤ 32767 :=
      fun x hx => h x (List.mem_cons_of_mem s hx)
    show ((asr.toInt16 (asr.int16ToUint16 s % 256 + 256 * (asr.int16ToUint16 s / 256)) : ℚ)
        / 32768) :: asr.decodeSamples (asr.encodeSamples rest) =
      ((s : ℚ) / 32768) :: rest.map (fun s : Int => (s : ℚ) / 32768)
    rw [toInt16_int16ToUint16 s hs.1 hs.2, ih hrest]

/-- Encoding produces two bytes per sample. -/
theorem encodeSamples_length (l : List Int) :
    (asr.encodeSamples l).length = 2 * l.length := by
  induction l with
  | nil => rfl
  | cons s rest ih =>
    simp [asr.encodeSamples, asr.encodeSample, ih]
    omega

/-- C3. Round trip: for every sequence of in-range 16-bit signed samples,
decoding the file made of a valid canonical header followed by the
little-endian encoding of the samples succeeds and yields a buffer of
the same length whose i-th element is `sample_i / 32768`, in order, with
every element in `[-1, 1]`. -/
theorem wav_roundtrip (samples : List Int)
    (h : ∀ s ∈ samples, -32768 ≤ s ∧ s ≤ 32767) :
    asr.loadAudioData (asr.canonicalHeader ++ asr.encodeSamples samples) =
      .ok (samples.map (fun s : Int => (s : ℚ) / 32768)) ∧
    (samples.map (fun s : Int => (s : ℚ) / 32768)).length = samples.length ∧
    ∀ q ∈ samples.map (fun s : Int => (s : ℚ) / 32768), -1 ≤ q ∧ q ≤ 1 := by
  have hhdr : asr.canonicalHeader.length = 44 := rfl
  have hpad : asr.padHeader (asr.canonicalHeader ++ asr.encodeSamples samples) =
      asr.canonicalHeader := by
    unfold asr.padHeader
    rw [List.take_left' hhdr]
    simp [hhdr]
  have hdrop : (asr.canonicalHeader ++ asr.encodeSamples samples).drop 44 =
      asr.encodeSamples samples := List.drop_left' hhdr
  have hlen : ¬ (asr.canonicalHeader ++ asr.encodeSamples samples).length = 0 := by
    simp [asr.canonicalHeader]
  refine ⟨?_, by simp, ?_⟩
  · unfold asr.loadAudioData
    rw [if_neg hlen, hpad, hdrop]
    have hm : ¬ asr.headerMagicOk asr.canonicalHeader = false := by decide
    have hf : ¬ asr.headerFormatOk asr.canonicalHeader = false := by decide
    have ho : ¬ (asr.encodeSamples samples).length % 2 ≠ 0 := by
      rw [encodeSamples_length]
      omega
    rw [if_neg hm, if_neg hf, if_neg ho, decodeSamples_encodeSamples samples h]
  · intro q hq
    rcases List.mem_map.mp hq with ⟨s, hsmem, rfl⟩
    have h1 := (h s hsmem).1
    have h2 := (h s hsmem).2
    constructor
    · rw [le_div_iff₀ (by norm_num : (0 : ℚ) < 32768)]
      have : (-32768 : ℚ) ≤ (s : ℚ) := by exact_mod_cast h1
      linarith
    · rw [div_le_one (by norm_num : (0 : ℚ) < 32768)]
      have : (s : ℚ) ≤ 32767 := by exact_mod_cast h2
      linarith

/-- Witness for C3 at the extreme and ordinary samples
`[0, 32767, -32768, -1]`. -/
theorem wav_roundtrip_witness :
    (∀ s ∈ [(0 : Int), 32767, -32768, -1], -32768 ≤ s ∧ s ≤ 32767) ∧
    (asr.loadAudioData (asr.canonicalHeader ++ asr.encodeSamples [0, 32767, -32768, -1]) =
      .ok ([(0 : Int), 32767, -32768, -1].map (fun s : Int => (s : ℚ) / 32768)) ∧
    ([(0 : Int), 32767, -32768, -1].map (fun s : Int => (s : ℚ) / 32768)).length =
      [(0 : Int), 32767, -32768, -1].length ∧
    ∀ q ∈ [(0 : Int), 32767, -32768, -1].map (fun s : Int => (s : ℚ) / 32768),
      -1 ≤ q ∧ q ≤ 1) :=
  ⟨by decide, wav_roundtrip [0, 32767, -32768, -1] (by decide)⟩

/-- C7. For every non-empty file whose padded header passes both the
magic check and the declared-format check, an odd payload byte count
after the 44-byte header makes the decoder fail with the
`InvalidFormat`-classified length error and return no sample buffer. -/
theorem odd_payload_rejected (file : List Nat) (hne : file ≠ [])
    (hm : asr.headerMagicOk (asr.padHeader file) = true)
    (hf : asr.headerFormatOk (asr.padHeader file) = true)
    (ho : (file.drop 44).length % 2 = 1) :
    asr.loadAudioData file = .error .invalidLength ∧
    (asr.AudioErr.invalidLength).isInvalidFormat = true ∧
    ∀ buf, asr.loadAudioData file ≠ .ok buf := by
  have hlen : ¬ file.length = 0 := fun h => hne (List.length_eq_zero.mp h)
  have hm' : ¬ asr.headerMagicOk (asr.padHeader file) = false := by simp [hm]
  have hf' : ¬ asr.headerFormatOk (asr.padHeader file) = false := by simp [hf]
  have ho' : (file.drop 44).length % 2 ≠ 0 := by omega
  have hmain : asr.loadAudioData file = .error .invalidLength := by
    unfold asr.loadAudioData
    rw [if_neg hlen, if_neg hm', if_neg hf', if_pos ho']
  exact ⟨hmain, rfl, fun buf hb => by rw [hmain] at hb; exact Except.noConfusion hb⟩

/-- Witness for C7 at a canonical header followed by three payload
bytes. -/
theorem odd_payload_rejected_witness :
    (asr.canonicalHeader ++ [0, 0, 0] ≠ [] ∧
     asr.headerMagicOk (asr.padHeader (asr.canonicalHeader ++ [0, 0, 0])) = true ∧
     asr.headerFormatOk (asr.padHeader (asr.canonicalHeader ++ [0, 0, 0])) = true ∧
     ((asr.canonicalHeader ++ [0, 0, 0]).drop 44).length % 2 = 1) ∧
    (asr.loadAudioData (asr.canonicalHeader ++ [0, 0, 0]) = .error .invalidLength ∧
     (asr.AudioErr.invalidLength).isInvalidFormat = true ∧
     ∀ buf, asr.loadAudioData (asr.canonicalHeader ++ [0, 0, 0]) ≠ .ok buf) :=
  ⟨⟨by decide, rfl, rfl, rfl⟩,
    odd_payload_rejected (asr.canonicalHeader ++ [0, 0, 0]) (by decide) rfl rfl rfl⟩

end DecoderProofs

section AsrServiceProofs

/-- Every successful `TranscribeFile` run carries the configured
language, whatever the engine did. -/
theorem transcribeFile_ok_language (cfg : asr.Config) (env : asr.WhisperEnv)
    (wav : List Nat) (r : asr.Result)
    (h : asr.transcribeFile cfg env wav = .ok r) : r.Language = cfg.Language := by
  unfold asr.transcribeFile at h
  cases hload : asr.loadAudioData wav with
  | error e =>
    simp only [hload] at h
    split_ifs at h
  | ok d =>
    simp only [hload] at h
    cases hdrain : asr.drainSegments env.segments env.drainErr with
    | error e =>
      simp only [hdrain] at h
      split_ifs at h
    | ok raw =>
      simp only [hdrain] at h
      split_ifs at h
      injection h with h2
      rw [← h2]

/-- C8. If the engine's segment sequence ends immediately — zero
segments before the end-of-sequence signal — and every prior stage
succeeds, `TranscribeFile` succeeds with the empty string as the
assembled, trimmed transcript (no error). -/
theorem transcribeFile_zero_segments (cfg : asr.Config) (env : asr.WhisperEnv)
    (wav : List Nat)
    (h1 : env.modelExists = true) (h2 : env.modelLoadOk = true)
    (h3 : env.newContextOk = true)
    (h4 : cfg.Language = "" ∨ env.setLanguageOk = true)
    (h5 : ∃ d, asr.loadAudioData wav = .ok d)
    (h6 : env.processOk = true)
    (h7 : env.segments = []) (h8 : env.drainErr = false) :
    asr.transcribeFile cfg env wav = .ok { Text := "", Language := cfg.Language } := by
  rcases h5 with ⟨d, hd⟩
  have h4' : ¬ (cfg.Language ≠ "" ∧ env.setLanguageOk = false) := by
    rcases h4 with h | h
    · intro hc; exact hc.1 h
    · intro hc; rw [h] at hc; exact Bool.noConfusion hc.2
  unfold asr.transcribeFile
  rw [if_neg (by rw [h1]; exact Bool.noConfusion),
    if_neg (by rw [h2]; exact Bool.noConfusion),
    if_neg (by rw [h3]; exact Bool.noConfusion),
    if_neg h4', hd]
  rw [if_neg (by rw [h6]; exact Bool.noConfusion)]
  rw [h7, h8]
  rfl

/-- Witness for C8: an all-healthy engine draining zero segments over a
canonical-header WAV with the default (empty, auto-detect) language
hint. -/
theorem transcribeFile_zero_segments_witness :
    (demoWhisperEnv.modelExists = true ∧ demoWhisperEnv.modelLoadOk = true ∧
     demoWhisperEnv.newContextOk = true ∧
     (asr.DefaultConfig.Language = "" ∨ demoWhisperEnv.setLanguageOk = true) ∧
     (∃ d, asr.loadAudioData asr.canonicalHeader = .ok d) ∧
     demoWhisperEnv.processOk = true ∧ demoWhisperEnv.segments = [] ∧
     demoWhisperEnv.drainErr = false) ∧
    asr.transcribeFile asr.DefaultConfig demoWhisperEnv asr.canonicalHeader =
      .ok { Text := "", Language := asr.DefaultConfig.Language } :=
  ⟨⟨rfl, rfl, rfl, Or.inl rfl, ⟨[], rfl⟩, rfl, rfl, rfl⟩,
    transcribeFile_zero_segments asr.DefaultConfig demoWhisperEnv asr.canonicalHeader
      rfl rfl rfl (Or.inl rfl) ⟨[], rfl⟩ rfl rfl rfl⟩

/-- C9. The ASR result's language field echoes the configured hint on
every successful transcription (also when the hint is empty), the run's
outcome is independent of whatever language the engine detected, and a
`TranscriptionResult` consists of exactly a text, a duration and an
error — it has no language field. -/
theorem transcription_language_is_echoed_hint :
    (∀ (cfg : asr.Config) (env : asr.WhisperEnv) (wav : List Nat),
      (asr.transcribeFile cfg env wav).toOption.map asr.Result.Language =
        (asr.transcribeFile cfg env wav).toOption.map (fun _ => cfg.Language)) ∧
    (∀ (cfg : asr.Config) (env : asr.WhisperEnv) (wav : List Nat) (d : String),
      asr.transcribeFile cfg { env with detectedLanguage := d } wav =
        asr.transcribeFile cfg env wav) ∧
    ∀ tr : ytaudio.TranscriptionResult, tr = ⟨tr.Text, tr.Duration, tr.Error⟩ := by
  refine ⟨?_, ?_, ?_⟩
  · intro cfg env wav
    cases hres : asr.transcribeFile cfg env wav with
    | error e => rfl
    | ok r =>
      simp [Except.toOption, transcribeFile_ok_language cfg env wav r hres]
  · intro cfg env wav d
    rfl
  · intro tr
    rfl

end AsrServiceProofs

section FileSystemLemmas

/-- A file just written exists. -/
theorem fsHas_fsSet_self (fs : FS) (p : String) (c : List Nat) :
    fsHas (fsSet fs p c) p = true := by
  simp [fsHas, fsSet]

/-- Writing one path preserves the existence of every path. -/
theorem fsHas_fsSet_mono (fs : FS) (p q : String) (c : List Nat)
    (h : fsHas fs q = true) : fsHas (fsSet fs p c) q = true := by
  rcases List.any_eq_true.mp h with ⟨e, hmem, he⟩
  have heq : e.1 = q := by simpa using he
  by_cases hpq : q = p
  · exact List.any_eq_true.mpr ⟨(p, c), List.mem_cons_self _ _, by simp [hpq]⟩
  · refine List.any_eq_true.mpr ⟨e, List.mem_cons_of_mem _ (List.mem_filter.mpr ⟨hmem, ?_⟩), he⟩
    simp [heq, hpq]

/-- Removing one path preserves the existence of every other path. -/
theorem fsHas_fsRemove (fs : FS) (p q : String) (hne : q ≠ p)
    (h : fsHas fs q = true) : fsHas (fsRemove fs p) q = true := by
  rcases List.any_eq_true.mp h with ⟨e, hmem, he⟩
  have heq : e.1 = q := by simpa using he
  refine List.any_eq_true.mpr ⟨e, List.mem_filter.mpr ⟨hmem, ?_⟩, he⟩
  simp [heq, hne]

/-- Reading back a just-written file yields its content. -/
theorem fsGet_fsSet_self (fs : FS) (p : String) (c : List Nat) :
    fsGet (fsSet fs p c) p = some c := by
  simp [fsGet, fsSet]

/-- Joining distinct names under the same directory yields distinct
paths. -/
theorem joinPath_inj {dir a b : String} (h : joinPath dir a = joinPath dir b) :
    a = b := by
  unfold joinPath at h
  rw [String.ext_iff, String.data_append, String.data_append, String.data_append,
    String.data_append] at h
  rw [String.ext_iff]
  exact List.append_cancel_left h

/-- The per-run media name never coincides with the fixed WAV name. -/
theorem videoName_ne_wavName (ts : Int) :
    "video_" ++ toString ts ++ ".mp4" ≠ "temp_audio.wav" := by
  intro h
  have hd := congrArg String.data h
  rw [String.data_append, String.data_append] at hd
  have hv : "video_".data = 'v' :: "ideo_".data := rfl
  have hw : "temp_audio.wav".data = 't' :: "emp_audio.wav".data := rfl
  rw [hv, hw, List.cons_append, List.cons_append] at hd
  injection hd with h1 _
  exact absurd h1 (by decide)

/-- In one run, the media path and the canonical-WAV path differ. -/
theorem videoPath_ne_wavPath (dir : String) (ts : Int) :
    ytaudio.videoPathFor dir ts ≠ ytaudio.wavPathFor dir :=
  fun h => videoName_ne_wavName ts (joinPath_inj h)

end FileSystemLemmas

section FetchOrchestratorProofs

/-- The best-format fold never loses a non-nil accumulator. -/
theorem foldl_selectStep_isSome (l : List youtube.Format) :
    ∀ b : youtube.Format, ∃ c, l.foldl ytaudio.selectStep (some b) = some c := by
  induction l with
  | nil => intro b; exact ⟨b, rfl⟩
  | cons f fs ih =>
    intro b
    have hstep : ytaudio.selectStep (some b) f =
        if b.Bitrate < f.Bitrate then some f else some b := rfl
    rw [List.foldl_cons, hstep]
    by_cases h : b.Bitrate < f.Bitrate
    · rw [if_pos h]; exact ih f
    · rw [if_neg h]; exact ih b

/-- On a non-empty format list the selection loop returns a format. -/
theorem selectBestFormat_isSome (l : List youtube.Format) (h : l ≠ []) :
    ∃ c, ytaudio.selectBestFormat l = some c := by
  cases l with
  | nil => exact absurd rfl h
  | cons f fs => exact foldl_selectStep_isSome fs f

/-- Exhaustive description of `downloadVideo`'s outcomes: an early error
leaving the file system untouched, a copy error after the output file
was created and partially written, or success with the full payload
written. -/
theorem downloadVideo_cases (env : ytaudio.FetchEnv) (c : Bool) (p : String)
    (fs : FS) :
    (∃ e, ytaudio.downloadVideo env c p fs = (.error e, fs)) ∨
    ytaudio.downloadVideo env c p fs = (.error .copyFailed, fsSet fs p env.streamWritten) ∨
    ytaudio.downloadVideo env c p fs = (.ok (), fsSet fs p env.streamWritten) := by
  cases hv : env.videoFormats with
  | none => exact Or.inl ⟨.getVideoFailed, by simp [ytaudio.downloadVideo, hv]⟩
  | some l =>
    by_cases h1 : (l.filter (fun f => 0 < f.AudioChannels)).length = 0
    · exact Or.inl ⟨.noAudioFormats, by simp [ytaudio.downloadVideo, hv, h1]⟩
    · cases hsel : ytaudio.selectBestFormat (l.filter (fun f => 0 < f.AudioChannels)) with
      | none =>
        exact Or.inl ⟨.noSuitableFormat, by simp [ytaudio.downloadVideo, hv, h1, hsel]⟩
      | some best =>
        cases hgs : env.getStreamOk with
        | false =>
          exact Or.inl ⟨.getStreamFailed,
            by simp [ytaudio.downloadVideo, hv, h1, hsel, hgs]⟩
        | true =>
          cases hcr : env.createOk with
          | false =>
            exact Or.inl ⟨.createFailed,
              by simp [ytaudio.downloadVideo, hv, h1, hsel, hgs, hcr]⟩
          | true =>
            cases hcp : env.copyErr with
            | true =>
              exact Or.inr (Or.inl
                (by simp [ytaudio.downloadVideo, hv, h1, hsel, hgs, hcr, hcp]))
            | false =>
              exact Or.inr (Or.inr
                (by simp [ytaudio.downloadVideo, hv, h1, hsel, hgs, hcr, hcp]))

/-- A successful download leaves a file at the requested path. -/
theorem downloadVideo_ok_creates (env : ytaudio.FetchEnv) (c : Bool) (p : String)
    (fs : FS) (h : (ytaudio.downloadVideo env c p fs).1 = .ok ()) :
    fsHas (ytaudio.downloadVideo env c p fs).2 p = true := by
  rcases downloadVideo_cases env c p fs with ⟨e, heq⟩ | heq | heq
  · rw [heq] at h; exact Except.noConfusion h
  · rw [heq] at h; exact Except.noConfusion h
  · rw [heq]; exact fsHas_fsSet_self fs p env.streamWritten

/-- `TranscribeAudio` touches only the per-run WAV path: every other
existing file still exists afterwards. -/
theorem transcribeAudio_preserves (cfg : asr.Config) (tenv : ytaudio.TranscodeEnv)
    (wenv : asr.WhisperEnv) (c : Bool) (ip tempDir : String) (fs : FS) (q : String)
    (hq : fsHas fs q = true) (hne : q ≠ ytaudio.wavPathFor tempDir) :
    fsHas (ytaudio.transcribeAudio cfg tenv wenv c ip tempDir fs).2 q = true := by
  cases c with
  | true =>
    simpa [ytaudio.transcribeAudio, ytaudio.convertToWAV] using hq
  | false =>
    cases hff : tenv.ffmpegOutput with
    | none =>
      simpa [ytaudio.transcribeAudio, ytaudio.convertToWAV, hff] using hq
    | some bytes =>
      have hkeep : fsHas (fsRemove (fsSet fs (ytaudio.wavPathFor tempDir) bytes)
          (ytaudio.wavPathFor tempDir)) q = true :=
        fsHas_fsRemove _ _ _ hne (fsHas_fsSet_mono fs _ q bytes hq)
      cases htf : asr.transcribeFile cfg wenv
          ((fsGet (fsSet fs (ytaudio.wavPathFor tempDir) bytes)
            (ytaudio.wavPathFor tempDir)).getD []) with
      | error e =>
        simpa [ytaudio.transcribeAudio, ytaudio.convertToWAV, hff, htf] using hkeep
      | ok r =>
        simpa [ytaudio.transcribeAudio, ytaudio.convertToWAV, hff, htf] using hkeep

/-- C10. Whenever a pipeline run fails at a stage after the fetch — the
failure is not a fetch failure — the downloaded media file is still
present in the final file system, whatever the cleanup flag says: the
flag is consulted only on the success path. -/
theorem media_file_survives_late_failure (cfg : ytaudio.Config)
    (fenv : ytaudio.FetchEnv) (tenv : ytaudio.TranscodeEnv) (wenv : asr.WhisperEnv)
    (c : Bool) (ns : Int) (el : Nat) (fs : FS) (e : ytaudio.PipeErr)
    (herr : (ytaudio.transcribeYouTubeVideo cfg fenv tenv wenv c ns el fs).1 = .error e)
    (hnf : e.isFetchFailed = false) :
    fsHas (ytaudio.transcribeYouTubeVideo cfg fenv tenv wenv c ns el fs).2
      (ytaudio.videoPathFor cfg.OutputDir (ytaudio.unixSeconds ns)) = true := by
  rcases hdv : ytaudio.downloadVideo fenv c
      (ytaudio.videoPathFor cfg.OutputDir (ytaudio.unixSeconds ns)) fs with ⟨res, fs1⟩
  cases res with
  | error fe =>
    have hrun : (ytaudio.transcribeYouTubeVideo cfg fenv tenv wenv c ns el fs).1 =
        .error (.fetchFailed fe) := by
      simp only [ytaudio.transcribeYouTubeVideo, hdv]
    rw [hrun] at herr
    injection herr with he
    rw [← he] at hnf
    simp [ytaudio.PipeErr.isFetchFailed] at hnf
  | ok u =>
    cases u
    have hfs1 : fsHas fs1
        (ytaudio.videoPathFor cfg.OutputDir (ytaudio.unixSeconds ns)) = true := by
      have h2 := downloadVideo_ok_creates fenv c
        (ytaudio.videoPathFor cfg.OutputDir (ytaudio.unixSeconds ns)) fs
        (by rw [hdv])
      rw [hdv] at h2
      exact h2
    rcases hta : ytaudio.transcribeAudio cfg.ASRConfig tenv wenv c
        (ytaudio.videoPathFor cfg.OutputDir (ytaudio.unixSeconds ns)) cfg.OutputDir fs1
      with ⟨res2, fs2⟩
    cases res2 with
    | error e2 =>
      have hrun : ytaudio.transcribeYouTubeVideo cfg fenv tenv wenv c ns el fs =
          (.error e2, fs2) := by
        simp only [ytaudio.transcribeYouTubeVideo, hdv, hta]
      rw [hrun]
      have h3 := transcribeAudio_preserves cfg.ASRConfig tenv wenv c
        (ytaudio.videoPathFor cfg.OutputDir (ytaudio.unixSeconds ns)) cfg.OutputDir fs1
        (ytaudio.videoPathFor cfg.OutputDir (ytaudio.unixSeconds ns)) hfs1
        (videoPath_ne_wavPath cfg.OutputDir (ytaudio.unixSeconds ns))
      rw [hta] at h3
      exact h3
    | ok r =>
      have hrun : ytaudio.transcribeYouTubeVideo cfg fenv tenv wenv c ns el fs =
          (.ok { Text := asr.trimSpace r.Text, Duration := el, Error := none },
            if cfg.CleanupFiles then
              fsRemove fs2 (ytaudio.videoPathFor cfg.OutputDir (ytaudio.unixSeconds ns))
            else fs2) := by
        simp only [ytaudio.transcribeYouTubeVideo, hdv, hta]
      rw [hrun] at herr
      exact Except.noConfusion herr

/-- Witness for C10: cleanup enabled, fetch succeeds, and the ASR stage
fails because the model file is missing; the media file survives. -/
theorem media_file_survives_late_failure_witness :
    ((ytaudio.transcribeYouTubeVideo demoYtCfg demoFetchEnvOk demoTenv
        demoWhisperEnvNoModel false 1700000000000000000 0 []).1 =
      .error (.asrFailed .modelNotFound) ∧
     (ytaudio.PipeErr.asrFailed .modelNotFound).isFetchFailed = false ∧
     demoYtCfg.CleanupFiles = true) ∧
    fsHas (ytaudio.transcribeYouTubeVideo demoYtCfg demoFetchEnvOk demoTenv
        demoWhisperEnvNoModel false 1700000000000000000 0 []).2
      (ytaudio.videoPathFor demoYtCfg.OutputDir
        (ytaudio.unixSeconds 1700000000000000000)) = true :=
  ⟨⟨rfl, rfl, rfl⟩,
    media_file_survives_late_failure demoYtCfg demoFetchEnvOk demoTenv
      demoWhisperEnvNoModel false 1700000000000000000 0 []
      (.asrFailed .modelNotFound) rfl rfl⟩

/-- C5. The fetch stage never consults the caller's cancellation signal
— the download is the same function of the environment whether or not
the signal is set — and a run started with the signal already set still
performs the full download, creates the media file in the output
directory, and fails only at the transcode stage with a context error,
not before the fetch. -/
theorem fetch_ignores_cancellation :
    (∀ (env : ytaudio.FetchEnv) (c c' : Bool) (p : String) (fs : FS),
      ytaudio.downloadVideo env c p fs = ytaudio.downloadVideo env c' p fs) ∧
    (ytaudio.transcribeYouTubeVideo demoYtCfg demoFetchEnvOk demoTenv demoWhisperEnv
        true 1700000000000000000 0 []).1 =
      .error (.transcodeFailed .contextCancelled) ∧
    fsHas (ytaudio.transcribeYouTubeVideo demoYtCfg demoFetchEnvOk demoTenv
        demoWhisperEnv true 1700000000000000000 0 []).2
      (ytaudio.videoPathFor "/tmp/ytaudio" (ytaudio.unixSeconds 1700000000000000000)) =
      true :=
  ⟨fun _ _ _ _ _ => rfl, rfl, rfl⟩

/-- C6 (counterexample). A transfer that fails after writing three bytes
leaves the partially written file at the target path when the fetcher
returns its error: the partial file is not removed. -/
theorem downloadVideo_partial_file_left :
    (ytaudio.downloadVideo demoFetchEnvPartial true "/tmp/ytaudio/video_1700000000.mp4"
        []).1 = .error .copyFailed ∧
    fsGet (ytaudio.downloadVideo demoFetchEnvPartial true
        "/tmp/ytaudio/video_1700000000.mp4" []).2 "/tmp/ytaudio/video_1700000000.mp4" =
      some [1, 2, 3] :=
  ⟨rfl, rfl⟩

/-- C6 (amended). When the network transfer fails partway through
materializing the chosen stream, the fetch operation fails with the copy
error, but the partially written file remains at the target path with
exactly the bytes written so far; nothing is removed before the fetcher
returns. -/
theorem downloadVideo_partial_failure (env : ytaudio.FetchEnv) (c : Bool)
    (p : String) (fs : FS)
    (hv : ∃ l, env.videoFormats = some l ∧
      (l.filter (fun f => 0 < f.AudioChannels)).length ≠ 0)
    (hgs : env.getStreamOk = true) (hcr : env.createOk = true)
    (hcp : env.copyErr = true) :
    (ytaudio.downloadVideo env c p fs).1 = .error .copyFailed ∧
    fsGet (ytaudio.downloadVideo env c p fs).2 p = some env.streamWritten := by
  rcases hv with ⟨l, hl, hlen⟩
  obtain ⟨best, hbest⟩ := selectBestFormat_isSome
    (l.filter (fun f => 0 < f.AudioChannels))
    (fun hnil => hlen (by rw [hnil]; rfl))
  have hrun : ytaudio.downloadVideo env c p fs =
      (.error .copyFailed, fsSet fs p env.streamWritten) := by
    simp [ytaudio.downloadVideo, hl, hlen, hbest, hgs, hcr, hcp]
  rw [hrun]
  exact ⟨rfl, fsGet_fsSet_self fs p env.streamWritten⟩

/-- Witness for the amended C6 at the concrete partial-failure
environment. -/
theorem downloadVideo_partial_failure_witness :
    ((∃ l, demoFetchEnvPartial.videoFormats = some l ∧
        (l.filter (fun f => 0 < f.AudioChannels)).length ≠ 0) ∧
      demoFetchEnvPartial.getStreamOk = true ∧
      demoFetchEnvPartial.createOk = true ∧ demoFetchEnvPartial.copyErr = true) ∧
    ((ytaudio.downloadVideo demoFetchEnvPartial false "/tmp/out.mp4" []).1 =
        .error .copyFailed ∧
      fsGet (ytaudio.downloadVideo demoFetchEnvPartial false "/tmp/out.mp4" []).2
        "/tmp/out.mp4" = some demoFetchEnvPartial.streamWritten) :=
  ⟨⟨⟨[⟨140, 2, 128000⟩], rfl, by decide⟩, rfl, rfl, rfl⟩,
    downloadVideo_partial_failure demoFetchEnvPartial false "/tmp/out.mp4" []
      ⟨[⟨140, 2, 128000⟩], rfl, by decide⟩ rfl rfl rfl⟩

/-- C4. The per-run file names are not distinct across runs: the media
name depends only on the whole second of the run's start instant — two
runs started one nanosecond apart inside the same second build the very
same media path — and the canonical-WAV name is the constant
`temp_audio.wav` under the shared output directory, identical for every
run. -/
theorem filename_collision_across_runs :
    (1700000000000000000 : Int) ≠ 1700000000000000001 ∧
    ytaudio.unixSeconds 1700000000000000000 = ytaudio.unixSeconds 1700000000000000001 ∧
    ytaudio.videoPathFor "/tmp/ytaudio" (ytaudio.unixSeconds 1700000000000000000) =
      ytaudio.videoPathFor "/tmp/ytaudio" (ytaudio.unixSeconds 1700000000000000001) ∧
    ytaudio.videoPathFor "/tmp/ytaudio" (ytaudio.unixSeconds 1700000000000000000) =
      "/tmp/ytaudio/video_1700000000.mp4" ∧
    ytaudio.wavPathFor "/tmp/ytaudio" = "/tmp/ytaudio/temp_audio.wav" :=
  ⟨by decide, rfl, rfl, rfl, rfl⟩

end FetchOrchestratorProofs
